import Mathlib

/-!
# Verification of the yule_log field-decode layer and builder

Shallow embedding of `src/crates/core/src/field_helpers.rs` and
`src/crates/core/src/builder.rs` (a ULog flight-log decoder), together with
the parts of the message cursor (`MessageBuf`) and parser construction that
those files call into.  `MessageBuf`, `ULogError` and `ULogParser` live in
repository files not included under `src/`; their operations are modelled
from the specification (spec.md §4.2, §4.5, §6, §7) and are marked as such.

Byte buffers are `List Nat` (each entry a byte value); machine integers are
`Nat`/`Int` with explicit `% 2 ^ w` masking; IEEE floats are carried as their
raw little-endian bit patterns (the decoder never computes with them, it only
reinterprets bytes, so bit patterns are the faithful value domain).
-/

instance {ε α : Type _} [DecidableEq ε] [DecidableEq α] : DecidableEq (Except ε α) :=
  fun a b =>
  match a, b with
  | .ok x, .ok y =>
    if h : x = y then .isTrue (h ▸ rfl) else .isFalse (fun hc => h (by injection hc))
  | .error x, .error y =>
    if h : x = y then .isTrue (h ▸ rfl) else .isFalse (fun hc => h (by injection hc))
  | .ok _, .error _ => .isFalse (fun hc => Except.noConfusion hc)
  | .error _, .ok _ => .isFalse (fun hc => Except.noConfusion hc)

/-- Modelled from the spec: error kinds (§7).  Only the kinds reachable from
the embedded code are needed: "unexpected end of payload" (§4.2) and the
I/O/mapping failure kind (§6, §7 kind 4). -/
inductive ULogError where
  | unexpectedEndOfPayload
  | ioError
  deriving DecidableEq, Repr

/-- Modelled from the spec: the Message Cursor (§4.2) "wraps one contiguous
byte range with a running read position". -/
structure MessageBuf where
  data : List Nat
  pos : Nat
  deriving DecidableEq, Repr

/-- Modelled from the spec: `remaining_bytes()` "exposes the unconsumed tail
for length checks" (§4.2). -/
def MessageBuf.remaining_bytes (buf : MessageBuf) : List Nat :=
  buf.data.drop buf.pos

/-- Modelled from the spec: `advance(n)` "returns the next `n` bytes as a
slice ... it fails the same way [unexpected end of payload] if `n` exceeds
remaining bytes" (§4.2). -/
def MessageBuf.advance (buf : MessageBuf) (n : Nat) :
    Except ULogError (List Nat × MessageBuf) :=
  if n ≤ buf.remaining_bytes.length then
    .ok (buf.remaining_bytes.take n, ⟨buf.data, buf.pos + n⟩)
  else
    .error .unexpectedEndOfPayload

/-- Little-endian byte-list to natural number (the shared interpretation both
decode policies bottom out in; the wire order is fixed little-endian, §4.2). -/
def fromLeBytes : List Nat → Nat
  | [] => 0
  | b :: rest => b % 256 + 256 * fromLeBytes rest

/-- Two's-complement reading of a `w`-bit pattern as a signed integer. -/
def toSigned (w : Nat) (n : Nat) : Int :=
  let m := n % 2 ^ w
  if m < 2 ^ (w - 1) then (m : Int) else (m : Int) - 2 ^ w

/-- Modelled from the spec: the common body of the cursor's typed `take_*`
operations (§4.2): consume exactly `w` bytes, convert from little-endian,
fail with "unexpected end of payload" if fewer than `w` bytes remain. -/
def MessageBuf.takeLeNat (buf : MessageBuf) (w : Nat) :
    Except ULogError (Nat × MessageBuf) :=
  match buf.advance w with
  | .error e => .error e
  | .ok (bs, buf') => .ok (fromLeBytes bs % 2 ^ (8 * w), buf')

/-- Modelled from the spec: signed variant of the `take_*` operations. -/
def MessageBuf.takeLeInt (buf : MessageBuf) (w : Nat) :
    Except ULogError (Int × MessageBuf) :=
  match buf.advance w with
  | .error e => .error e
  | .ok (bs, buf') => .ok (toSigned (8 * w) (fromLeBytes bs), buf')

def MessageBuf.take_u8 (buf : MessageBuf) := buf.takeLeNat 1
def MessageBuf.take_u16 (buf : MessageBuf) := buf.takeLeNat 2
def MessageBuf.take_u32 (buf : MessageBuf) := buf.takeLeNat 4
def MessageBuf.take_u64 (buf : MessageBuf) := buf.takeLeNat 8
def MessageBuf.take_i8 (buf : MessageBuf) := buf.takeLeInt 1
def MessageBuf.take_i16 (buf : MessageBuf) := buf.takeLeInt 2
def MessageBuf.take_i32 (buf : MessageBuf) := buf.takeLeInt 4
def MessageBuf.take_i64 (buf : MessageBuf) := buf.takeLeInt 8

/-- `take_f32`: an IEEE 32-bit float carried as its raw bit pattern. -/
def MessageBuf.take_f32 (buf : MessageBuf) := buf.takeLeNat 4

/-- `take_f64`: an IEEE 64-bit float carried as its raw bit pattern. -/
def MessageBuf.take_f64 (buf : MessageBuf) := buf.takeLeNat 8

/-- The primitive element types `T` for which `ParseFromBuf` is implemented in
`field_helpers.rs` (u8..u64, i8..i64, f32, f64, bool, char). -/
inductive PrimTy where
  | u8 | u16 | u32 | u64
  | i8 | i16 | i32 | i64
  | f32 | f64
  | bool | char
  deriving DecidableEq, Repr

/-- Rust's `std::mem::size_of::<T>()` for each supported element type.
Note `size_of::<char>() = 4` and `size_of::<bool>() = 1` in Rust. -/
def PrimTy.sizeOf : PrimTy → Nat
  | .u8 | .i8 | .bool => 1
  | .u16 | .i16 => 2
  | .u32 | .i32 | .f32 | .char => 4
  | .u64 | .i64 | .f64 => 8

/-- Modelled from the spec: the byte width the format declares for each type
(§3 "single byte interpreted as a character", boolean over one byte; numeric
types use their natural width).  This is also exactly the number of bytes the
element-wise (`ParseFromBuf`) decode of one element consumes. -/
def PrimTy.formatWidth : PrimTy → Nat
  | .bool | .char => 1
  | t => t.sizeOf

/-- Decoded primitive values.  Floats are their raw IEEE bit patterns; a char
is its code-point value. -/
inductive PrimVal where
  | uint (v : Nat)
  | int (v : Int)
  | float (bits : Nat)
  | bool (v : Bool)
  | char (code : Nat)
  deriving DecidableEq, Repr

/-- `ParseFromBuf::parse_from_buf` from `field_helpers.rs` lines 8-67: each
primitive defers to the corresponding typed `take_*`; `bool` is
`take_u8()? != 0`; `char` is `take_u8()? as char`. -/
def parse_from_buf (t : PrimTy) (buf : MessageBuf) :
    Except ULogError (PrimVal × MessageBuf) :=
  match t with
  | .u8 => match buf.take_u8 with
    | .error e => .error e
    | .ok (v, b) => .ok (.uint v, b)
  | .u16 => match buf.take_u16 with
    | .error e => .error e
    | .ok (v, b) => .ok (.uint v, b)
  | .u32 => match buf.take_u32 with
    | .error e => .error e
    | .ok (v, b) => .ok (.uint v, b)
  | .u64 => match buf.take_u64 with
    | .error e => .error e
    | .ok (v, b) => .ok (.uint v, b)
  | .i8 => match buf.take_i8 with
    | .error e => .error e
    | .ok (v, b) => .ok (.int v, b)
  | .i16 => match buf.take_i16 with
    | .error e => .error e
    | .ok (v, b) => .ok (.int v, b)
  | .i32 => match buf.take_i32 with
    | .error e => .error e
    | .ok (v, b) => .ok (.int v, b)
  | .i64 => match buf.take_i64 with
    | .error e => .error e
    | .ok (v, b) => .ok (.int v, b)
  | .f32 => match buf.take_f32 with
    | .error e => .error e
    | .ok (v, b) => .ok (.float v, b)
  | .f64 => match buf.take_f64 with
    | .error e => .error e
    | .ok (v, b) => .ok (.float v, b)
  | .bool => match buf.take_u8 with
    | .error e => .error e
    | .ok (v, b) => .ok (.bool (v != 0), b)
  | .char => match buf.take_u8 with
    | .error e => .error e
    | .ok (v, b) => .ok (.char v, b)

/-- `parse_data_field` (`field_helpers.rs` lines 69-71): delegates to
`T::parse_from_buf`. -/
def parse_data_field (t : PrimTy) (buf : MessageBuf) :
    Except ULogError (PrimVal × MessageBuf) :=
  parse_from_buf t buf

/-- `parse_array` (`field_helpers.rs` lines 73-93), modelled operationally:
the destination of `Vec::with_capacity(array_size)` is `array_size` slots of
uninitialized memory (`none`); the loop writes slot `i` with the result of the
`i`-th `parse_element` call through the raw pointer (`List.set`), propagating
the first error with `?`. -/
def parse_array_writes {α : Type _}
    (parse_element : MessageBuf → Except ULogError (α × MessageBuf)) :
    Nat → Nat → List (Option α) → MessageBuf →
      Except ULogError (List (Option α) × MessageBuf)
  | _, 0, dst, buf => .ok (dst, buf)
  | i, n + 1, dst, buf =>
    match parse_element buf with
    | .error e => .error e
    | .ok (v, buf') => parse_array_writes parse_element (i + 1) n (dst.set i (some v)) buf'

/-- `parse_array` (`field_helpers.rs` lines 73-93): allocate `array_size`
uninitialized slots, run the write loop from index 0, then `set_len` — i.e.
read back all `array_size` slots as initialized values.  `junk` stands for
whatever an uninitialized slot would contain if it were ever read back. -/
def parse_array {α : Type _} (array_size : Nat) (message_buf : MessageBuf)
    (parse_element : MessageBuf → Except ULogError (α × MessageBuf)) (junk : α) :
    Except ULogError (List α × MessageBuf) :=
  match parse_array_writes parse_element 0 array_size
      (List.replicate array_size none) message_buf with
  | .error e => .error e
  | .ok (dst, buf') => .ok (dst.map (fun o => o.getD junk), buf')

/-- The naive element-wise reference: push the result of each sequential
`parse_element` call onto a growing vector (the specification baseline that
`parse_array`'s raw-pointer implementation is compared against, and also the
body of `parse_typed_array`'s slow path with `parse_element :=
parse_data_field t`). -/
def parse_array_naive {α : Type _}
    (parse_element : MessageBuf → Except ULogError (α × MessageBuf)) :
    Nat → MessageBuf → Except ULogError (List α × MessageBuf)
  | 0, buf => .ok ([], buf)
  | n + 1, buf =>
    match parse_element buf with
    | .error e => .error e
    | .ok (v, buf') =>
      match parse_array_naive parse_element n buf' with
      | .error e => .error e
      | .ok (vs, buf'') => .ok (v :: vs, buf'')

/-- The element-wise array-decode policy for a primitive type: `array_size`
sequential scalar decodes (`parse_typed_array`'s slow path, `field_helpers.rs`
lines 156-162). -/
def elementwise_decode (t : PrimTy) (array_size : Nat) (buf : MessageBuf) :
    Except ULogError (List PrimVal × MessageBuf) :=
  parse_array_naive (parse_data_field t) array_size buf

/-- The native (little-endian host) reinterpretation of `sizeOf t` raw bytes
as one value of type `t` — what reading through `*const T` yields. -/
def reinterpretElem (t : PrimTy) (bytes : List Nat) : PrimVal :=
  match t with
  | .u8 => .uint (fromLeBytes bytes % 2 ^ 8)
  | .u16 => .uint (fromLeBytes bytes % 2 ^ 16)
  | .u32 => .uint (fromLeBytes bytes % 2 ^ 32)
  | .u64 => .uint (fromLeBytes bytes % 2 ^ 64)
  | .i8 => .int (toSigned 8 (fromLeBytes bytes))
  | .i16 => .int (toSigned 16 (fromLeBytes bytes))
  | .i32 => .int (toSigned 32 (fromLeBytes bytes))
  | .i64 => .int (toSigned 64 (fromLeBytes bytes))
  | .f32 => .float (fromLeBytes bytes % 2 ^ 32)
  | .f64 => .float (fromLeBytes bytes % 2 ^ 64)
  | .bool => .bool (fromLeBytes bytes % 2 ^ 8 != 0)
  | .char => .char (fromLeBytes bytes % 2 ^ 32)

/-- The aligned fast-path sub-path (`field_helpers.rs` lines 123-130):
`copy_nonoverlapping` reinterprets the whole byte range as `[T; array_size]`,
so element `i` is the reinterpretation of bytes `[i*sizeOf, (i+1)*sizeOf)`. -/
def bulk_copy_nonoverlapping (t : PrimTy) (array_size : Nat) (bytes : List Nat) :
    List PrimVal :=
  (List.range array_size).map
    (fun i => reinterpretElem t ((bytes.drop (i * t.sizeOf)).take t.sizeOf))

/-- The unaligned fast-path sub-path (`field_helpers.rs` lines 139-152): for
each `i`, `src_ptr.add(i).read_unaligned()` reinterprets bytes
`[i*sizeOf, (i+1)*sizeOf)` of the already-sliced range. -/
def bulk_read_unaligned (t : PrimTy) (array_size : Nat) (bytes : List Nat) :
    List PrimVal :=
  (List.range array_size).map
    (fun i => reinterpretElem t ((bytes.drop (i * t.sizeOf)).take t.sizeOf))

/-- Chunk-recursive restatement of the bulk reinterpretation (element `i` of
the result is the reinterpretation of bytes `[i*sizeOf, (i+1)*sizeOf)`),
used as the induction-friendly form in proofs; `bulk_chunks_eq_read_unaligned`
shows it coincides with the indexed form. -/
def bulkChunks (t : PrimTy) : Nat → List Nat → List PrimVal
  | 0, _ => []
  | n + 1, bytes =>
    reinterpretElem t (bytes.take t.sizeOf) :: bulkChunks t n (bytes.drop t.sizeOf)

/-- `parse_typed_array` (`field_helpers.rs` lines 98-163), on a little-endian
host (the `#[cfg(target_endian = "little")]` block is compiled in; the ULog
wire order is little-endian and so is the modelled host).  `aligned` is the
outcome of the run-time address-alignment check on line 116, an artifact of
where the allocator placed the buffer and hence an input to the model.

Machine-arithmetic caveat: `byte_size` here is exact natural arithmetic,
while the source computes `array_size * size_of::<T>()` as a `usize` multiply
(64-bit target), which wraps modulo `2^64` on the release profile and panics
on the debug profile; and on both profiles every path of the source calls
`Vec::with_capacity(array_size)` before producing any value, which panics
(capacity overflow) whenever the exact allocation size exceeds `isize::MAX`.
`usize_mul` and `parse_typed_array_panics` below model that machine
behaviour: whenever `¬ parse_typed_array_panics t array_size` the `usize`
product equals the exact one (`usize_mul_eq_of_no_panic`) and this function
computes exactly what the source does; on panicking inputs the source returns
neither a value nor an error, and this total function's result is the
hypothetical continuation in exact arithmetic. -/
def parse_typed_array (t : PrimTy) (array_size : Nat) (message_buf : MessageBuf)
    (aligned : Bool) : Except ULogError (List PrimVal × MessageBuf) :=
  if 0 < t.sizeOf then
    let byte_size := array_size * t.sizeOf
    if byte_size ≤ message_buf.remaining_bytes.length then
      match message_buf.advance byte_size with
      | .error e => .error e
      | .ok (bytes, buf') =>
        if aligned then
          .ok (bulk_copy_nonoverlapping t array_size bytes, buf')
        else
          .ok (bulk_read_unaligned t array_size bytes, buf')
    else
      elementwise_decode t array_size message_buf
  else
    elementwise_decode t array_size message_buf

/-- `usize` multiplication as the source's `array_size * size_of::<T>()`
performs it on the modelled 64-bit little-endian target, release profile:
wrapping modulo `2^64`.  (The debug profile panics at exactly the inputs
where this wraps; those inputs are covered by `parse_typed_array_panics`.) -/
def usize_mul (a b : Nat) : Nat :=
  a * b % 2 ^ 64

/-- `isize::MAX` on the modelled 64-bit target: the largest allocation size
`Vec::with_capacity` accepts without panicking. -/
def ISIZE_MAX : Nat :=
  2 ^ 63 - 1

/-- The real `parse_typed_array::<T>(array_size, ..)` call panics instead of
returning: every path of the source (both fast sub-paths, line 125/141, and
the slow path, line 158) calls `Vec::with_capacity(array_size)` before
producing any value, and that call panics with capacity overflow whenever the
exact allocation size `array_size * size_of::<T>()` exceeds `isize::MAX` —
which in particular is the case whenever the `usize` computation of
`byte_size` wrapped (debug profile: the wrapping multiply itself panics
first).  On these inputs no `Ok` and no error is ever returned. -/
def parse_typed_array_panics (t : PrimTy) (array_size : Nat) : Prop :=
  ISIZE_MAX < array_size * t.sizeOf

instance (t : PrimTy) (array_size : Nat) :
    Decidable (parse_typed_array_panics t array_size) := by
  unfold parse_typed_array_panics
  infer_instance

/-- Which raw bit patterns are valid for a Rust value of the given type:
every pattern is valid for the numeric types, a `bool` must be 0 or 1, and a
`char` must be a Unicode scalar value.  The bulk reinterpretation producing a
value from an invalid pattern is undefined behavior in Rust. -/
def validBitPattern (t : PrimTy) (bytes : List Nat) : Prop :=
  match t with
  | .bool => fromLeBytes bytes % 2 ^ 8 < 2
  | .char =>
    fromLeBytes bytes % 2 ^ 32 < 0xD800 ∨
      (0xE000 ≤ fromLeBytes bytes % 2 ^ 32 ∧ fromLeBytes bytes % 2 ^ 32 ≤ 0x10FFFF)
  | _ => True

instance (t : PrimTy) (bytes : List Nat) : Decidable (validBitPattern t bytes) := by
  unfold validBitPattern
  cases t <;> infer_instance

/-- `t` is one of the numeric element types (the types the unsafe blocks'
SAFETY comments in `field_helpers.rs` claim `T` to be). -/
def PrimTy.isNumeric : PrimTy → Prop
  | .bool | .char => False
  | _ => True

/-- The fast path of `parse_typed_array t array_size buf` is taken and hands
the bulk reinterpretation a byte pattern that is invalid for `t` — i.e. the
call materializes an invalid Rust value, which is undefined behavior. -/
def fastPathReadsInvalid (t : PrimTy) (array_size : Nat) (buf : MessageBuf) : Prop :=
  array_size * t.sizeOf ≤ buf.remaining_bytes.length ∧
    ∃ i, i < array_size ∧
      ¬ validBitPattern t
        (((buf.remaining_bytes.take (array_size * t.sizeOf)).drop (i * t.sizeOf)).take
          t.sizeOf)

/-- Modelled from the spec: the decoding-engine state the builder configures
(§4.5, §6).  Internal framing state beyond the configuration surface is not
needed by any claim; the reader and the four configuration fields are.  The
allow-list hash set is modelled by a `List String` carrying its membership. -/
structure ULogParser (R : Type _) where
  reader : R
  include_header : Bool
  include_timestamp : Bool
  include_padding : Bool
  allowed_subscription_names : Option (List String)
  deriving DecidableEq, Repr

/-- Modelled from the spec: `ULogParser::new` reads the fixed preamble from
the reader and fails on mismatch before any message is produced (§4.5
`AwaitingHeader`); on success the engine starts with the default
configuration (§6: flags all false, allow-list unset).  `checkHeader`
abstracts the preamble validation over the opaque reader. -/
def ULogParser.new {R : Type _} (checkHeader : R → Option ULogError) (reader : R) :
    Except ULogError (ULogParser R) :=
  match checkHeader reader with
  | some e => .error e
  | none => .ok ⟨reader, false, false, false, none⟩

/-- Modelled from the spec: `parser.set_allowed_subscription_names(s)`
installs the allow-list (§3 Allow-List: "an immutable set of subscription
names, supplied once at configuration time"). -/
def ULogParser.set_allowed_subscription_names {R : Type _} (p : ULogParser R)
    (s : List String) : ULogParser R :=
  { p with allowed_subscription_names := some s }

/-- Modelled from the spec: the per-message allow-list policy (§4.5): "If an
allow-list is configured and the resolved name is not a member", pass the
payload through raw; "If no allow-list is configured, or the name is a
member, decode every field". -/
def decodesFully (allowed : Option (List String)) (name : String) : Bool :=
  match allowed with
  | none => true
  | some l => l.contains name

/-- `ULogParserBuilder` (`builder.rs` lines 10-16). -/
structure ULogParserBuilder (R : Type _) where
  reader : R
  include_header : Bool
  include_timestamp : Bool
  include_padding : Bool
  allowed_subscription_names : Option (List String)
  deriving DecidableEq, Repr

/-- `ULogParserBuilder::new` (`builder.rs` lines 21-29). -/
def ULogParserBuilder.new {R : Type _} (reader : R) : ULogParserBuilder R :=
  ⟨reader, false, false, false, none⟩

/-- The `include_header` setter (`builder.rs` lines 32-35); named
`set_include_header` here because the Lean field accessor already takes the
Rust method's name. -/
def ULogParserBuilder.set_include_header {R : Type _} (b : ULogParserBuilder R)
    (include' : Bool) : ULogParserBuilder R :=
  { b with include_header := include' }

/-- The `include_timestamp` setter (`builder.rs` lines 38-41). -/
def ULogParserBuilder.set_include_timestamp {R : Type _} (b : ULogParserBuilder R)
    (include' : Bool) : ULogParserBuilder R :=
  { b with include_timestamp := include' }

/-- The `include_padding` setter (`builder.rs` lines 44-47). -/
def ULogParserBuilder.set_include_padding {R : Type _} (b : ULogParserBuilder R)
    (include' : Bool) : ULogParserBuilder R :=
  { b with include_padding := include' }

/-- `set_subscription_allow_list` (`builder.rs` lines 62-69): collects the
iterable into a set and stores `Some` of it.  The iterable and the collected
hash set are both modelled by the list of names. -/
def ULogParserBuilder.set_subscription_allow_list {R : Type _}
    (b : ULogParserBuilder R) (subs : List String) : ULogParserBuilder R :=
  { b with allowed_subscription_names := some subs }

/-- `ULogParserBuilder::build` (`builder.rs` lines 72-89): run
`ULogParser::new` on the reader; on success copy the three flags onto the
parser and, only if the builder's allow-list is `Some`, install it; on error
return the error unchanged.  `new` abstracts `ULogParser::new` (whose source
is outside `src/`). -/
def ULogParserBuilder.build {R : Type _} (b : ULogParserBuilder R)
    (new : R → Except ULogError (ULogParser R)) : Except ULogError (ULogParser R) :=
  match new b.reader with
  | .ok parser =>
    let parser₁ :=
      { parser with
        include_header := b.include_header
        include_timestamp := b.include_timestamp
        include_padding := b.include_padding }
    let parser₂ :=
      match b.allowed_subscription_names with
      | some allowed_subscr => parser₁.set_allowed_subscription_names allowed_subscr
      | none => parser₁
    .ok parser₂
  | .error err => .error err

/-- `ULogParserBuilder::from_file` (`builder.rs` lines 105-120):
`File::open(path)?` and `Mmap::map(&file)?` are modelled from the spec (§4.1,
§6) by `openMmap`, returning `none` exactly when the file cannot be opened or
mapped; the `?` operator converts that failure into the I/O error kind.  On
success the builder starts with all defaults. -/
def ULogParserBuilder.from_file {R : Type _} (openMmap : String → Option R)
    (path : String) : Except ULogError (ULogParserBuilder R) :=
  match openMmap path with
  | none => .error .ioError
  | some reader => .ok ⟨reader, false, false, false, none⟩

example : parse_from_buf .u16 ⟨[1, 2, 3], 0⟩ = .ok (.uint 513, ⟨[1, 2, 3], 2⟩) := by
  decide

example : parse_from_buf .i8 ⟨[255], 0⟩ = .ok (.int (-1), ⟨[255], 1⟩) := by
  decide

example : parse_from_buf .u32 ⟨[1, 2], 0⟩ = .error .unexpectedEndOfPayload := by
  decide

/-! ## Lemmas about the cursor -/

lemma MessageBuf.advance_ok (buf : MessageBuf) (n : Nat)
    (h : n ≤ buf.remaining_bytes.length) :
    buf.advance n = .ok (buf.remaining_bytes.take n, ⟨buf.data, buf.pos + n⟩) := by
  simp [MessageBuf.advance, h]

lemma MessageBuf.remaining_bytes_pos_add (buf : MessageBuf) (n : Nat) :
    (⟨buf.data, buf.pos + n⟩ : MessageBuf).remaining_bytes =
      buf.remaining_bytes.drop n := by
  simp [MessageBuf.remaining_bytes, List.drop_drop, Nat.add_comm]

lemma MessageBuf.length_remaining_pos_add (buf : MessageBuf) (n : Nat) :
    (⟨buf.data, buf.pos + n⟩ : MessageBuf).remaining_bytes.length =
      buf.remaining_bytes.length - n := by
  rw [MessageBuf.remaining_bytes_pos_add, List.length_drop]

lemma MessageBuf.takeLeNat_ok {buf : MessageBuf} {w : Nat} {v : Nat} {b' : MessageBuf}
    (h : buf.takeLeNat w = .ok (v, b')) :
    w ≤ buf.remaining_bytes.length ∧
      v = fromLeBytes (buf.remaining_bytes.take w) % 2 ^ (8 * w) ∧
      b' = ⟨buf.data, buf.pos + w⟩ := by
  unfold MessageBuf.takeLeNat MessageBuf.advance at h
  by_cases hw : w ≤ buf.remaining_bytes.length
  · simp [hw] at h
    exact ⟨hw, h.1.symm, h.2.symm⟩
  · simp [hw] at h

lemma MessageBuf.takeLeInt_ok {buf : MessageBuf} {w : Nat} {v : Int} {b' : MessageBuf}
    (h : buf.takeLeInt w = .ok (v, b')) :
    w ≤ buf.remaining_bytes.length ∧
      v = toSigned (8 * w) (fromLeBytes (buf.remaining_bytes.take w)) ∧
      b' = ⟨buf.data, buf.pos + w⟩ := by
  unfold MessageBuf.takeLeInt MessageBuf.advance at h
  by_cases hw : w ≤ buf.remaining_bytes.length
  · simp [hw] at h
    exact ⟨hw, h.1.symm, h.2.symm⟩
  · simp [hw] at h

/-- `sizeOf` is positive for every supported element type (the source's
`size_of::<T>() > 0` guard always passes). -/
lemma PrimTy.sizeOf_pos (t : PrimTy) : 0 < t.sizeOf := by
  cases t <;> decide

/-- For every type but `char`, the format width (= element-wise consumption)
agrees with Rust's `size_of::<T>()`. -/
lemma PrimTy.formatWidth_eq_sizeOf {t : PrimTy} (ht : t ≠ .char) :
    t.formatWidth = t.sizeOf := by
  cases t <;> first | rfl | exact absurd rfl ht

/-- The format width never exceeds `size_of::<T>()`. -/
lemma PrimTy.formatWidth_le_sizeOf (t : PrimTy) : t.formatWidth ≤ t.sizeOf := by
  cases t <;> decide

/-! ## Scalar decode versus native reinterpretation -/

/-- For every supported element type except `char`, the element-wise scalar
decode of one element, given enough bytes, consumes `sizeOf t` bytes and
yields exactly the value the fast path's native little-endian
reinterpretation of those bytes yields.  (`char` is the exception: its
element-wise decode reads 1 byte while `size_of::<char>() = 4`.) -/
lemma parse_from_buf_eq_reinterpret {t : PrimTy} (ht : t ≠ .char) (buf : MessageBuf)
    (h : t.sizeOf ≤ buf.remaining_bytes.length) :
    parse_from_buf t buf =
      .ok (reinterpretElem t (buf.remaining_bytes.take t.sizeOf),
        ⟨buf.data, buf.pos + t.sizeOf⟩) := by
  cases t
  case char => exact absurd rfl ht
  all_goals
    simp only [PrimTy.sizeOf] at h
    simp [parse_from_buf, MessageBuf.take_u8, MessageBuf.take_u16, MessageBuf.take_u32,
      MessageBuf.take_u64, MessageBuf.take_i8, MessageBuf.take_i16, MessageBuf.take_i32,
      MessageBuf.take_i64, MessageBuf.take_f32, MessageBuf.take_f64,
      MessageBuf.takeLeNat, MessageBuf.takeLeInt, MessageBuf.advance, h,
      reinterpretElem, PrimTy.sizeOf]

/-- A successful element-wise scalar decode always consumes exactly
`formatWidth t` bytes (1 for `bool` and `char`, `sizeOf t` otherwise) and
presupposes that many bytes were available. -/
lemma parse_from_buf_ok_of_le (t : PrimTy) (buf : MessageBuf)
    (h : t.formatWidth ≤ buf.remaining_bytes.length) :
    ∃ v, parse_from_buf t buf = .ok (v, ⟨buf.data, buf.pos + t.formatWidth⟩) := by
  by_cases ht : t = .char
  · subst ht
    refine ⟨.char (fromLeBytes (buf.remaining_bytes.take 1) % 2 ^ 8), ?_⟩
    simp only [PrimTy.formatWidth] at h ⊢
    simp [parse_from_buf, MessageBuf.take_u8, MessageBuf.takeLeNat, MessageBuf.advance, h]
  · rw [PrimTy.formatWidth_eq_sizeOf ht] at h ⊢
    exact ⟨_, parse_from_buf_eq_reinterpret ht buf h⟩

/-- The element-wise scalar decode fails (with the cursor's
"unexpected end of payload") when fewer than `formatWidth t` bytes remain. -/
lemma parse_from_buf_error_of_short (t : PrimTy) (buf : MessageBuf)
    (h : buf.remaining_bytes.length < t.formatWidth) :
    parse_from_buf t buf = .error .unexpectedEndOfPayload := by
  have h' : ¬ t.formatWidth ≤ buf.remaining_bytes.length := by omega
  cases t <;>
    (simp only [PrimTy.formatWidth, PrimTy.sizeOf] at h' ⊢
     simp [parse_from_buf, MessageBuf.take_u8, MessageBuf.take_u16, MessageBuf.take_u32,
       MessageBuf.take_u64, MessageBuf.take_i8, MessageBuf.take_i16, MessageBuf.take_i32,
       MessageBuf.take_i64, MessageBuf.take_f32, MessageBuf.take_f64,
       MessageBuf.takeLeNat, MessageBuf.takeLeInt, MessageBuf.advance, h'])

/-! ## Element-wise decoding lemmas -/

lemma parse_array_naive_ok_length {α : Type _}
    {pe : MessageBuf → Except ULogError (α × MessageBuf)} :
    ∀ {n : Nat} {buf : MessageBuf} {vs : List α} {b' : MessageBuf},
      parse_array_naive pe n buf = .ok (vs, b') → vs.length = n := by
  intro n
  induction n with
  | zero =>
    intro buf vs b' h
    simp only [parse_array_naive, Except.ok.injEq, Prod.mk.injEq] at h
    rw [← h.1]
    rfl
  | succ n ih =>
    intro buf vs b' h
    rw [parse_array_naive] at h
    rcases hpe : pe buf with e | ⟨v, buf₁⟩
    · simp only [hpe] at h
      exact Except.noConfusion h
    · simp only [hpe] at h
      rcases hrec : parse_array_naive pe n buf₁ with e | ⟨vs₁, buf₂⟩
      · simp only [hrec] at h
        exact Except.noConfusion h
      · simp only [hrec, Except.ok.injEq, Prod.mk.injEq] at h
        rw [← h.1, List.length_cons, ih hrec]

/-! ## Bulk reinterpretation lemmas -/

lemma bulk_copy_eq_read_unaligned :
    bulk_copy_nonoverlapping = bulk_read_unaligned := rfl

lemma bulk_chunks_eq_read_unaligned (t : PrimTy) :
    ∀ (n : Nat) (bytes : List Nat), bulk_read_unaligned t n bytes = bulkChunks t n bytes := by
  intro n
  induction n with
  | zero => intro bytes; rfl
  | succ n ih =>
    intro bytes
    rw [bulk_read_unaligned, List.range_succ_eq_map, List.map_cons, List.map_map]
    rw [bulkChunks, ← ih (bytes.drop t.sizeOf), bulk_read_unaligned]
    congr 1
    · simp
    · apply List.map_congr_left
      intro i _
      simp only [Function.comp_apply, Nat.succ_eq_add_one]
      rw [List.drop_drop, Nat.succ_mul, Nat.add_comm (i * t.sizeOf) t.sizeOf]

lemma bulk_read_unaligned_length (t : PrimTy) (n : Nat) (bytes : List Nat) :
    (bulk_read_unaligned t n bytes).length = n := by
  simp [bulk_read_unaligned]

lemma parse_from_buf_ok_consumes {t : PrimTy} {buf : MessageBuf} {v : PrimVal}
    {b' : MessageBuf} (h : parse_from_buf t buf = .ok (v, b')) :
    t.formatWidth ≤ buf.remaining_bytes.length ∧
      b' = ⟨buf.data, buf.pos + t.formatWidth⟩ := by
  by_cases hw : t.formatWidth ≤ buf.remaining_bytes.length
  · obtain ⟨v', heq⟩ := parse_from_buf_ok_of_le t buf hw
    rw [heq] at h
    simp only [Except.ok.injEq, Prod.mk.injEq] at h
    exact ⟨hw, h.2.symm⟩
  · rw [parse_from_buf_error_of_short t buf (by omega)] at h
    exact Except.noConfusion h

/-- Element-wise decode of `n` elements fails with the cursor's error when the
buffer holds fewer than `n * formatWidth t` bytes — the bytes the array
requires (`formatWidth` being what each scalar decode consumes). -/
lemma elementwise_decode_short_error (t : PrimTy) :
    ∀ (n : Nat) (buf : MessageBuf),
      buf.remaining_bytes.length < n * t.formatWidth →
      elementwise_decode t n buf = .error .unexpectedEndOfPayload := by
  intro n
  induction n with
  | zero =>
    intro buf h
    rw [Nat.zero_mul] at h
    exact absurd h (Nat.not_lt_zero _)
  | succ n ih =>
    intro buf h
    rw [Nat.succ_mul] at h
    rw [elementwise_decode, parse_array_naive]
    by_cases hw : t.formatWidth ≤ buf.remaining_bytes.length
    · obtain ⟨v, heq⟩ := parse_from_buf_ok_of_le t buf hw
      have hpe : parse_data_field t buf =
          .ok (v, ⟨buf.data, buf.pos + t.formatWidth⟩) := heq
      simp only [hpe]
      have hlen : (⟨buf.data, buf.pos + t.formatWidth⟩ : MessageBuf).remaining_bytes.length
          < n * t.formatWidth := by
        rw [MessageBuf.length_remaining_pos_add]
        omega
      have hrec := ih ⟨buf.data, buf.pos + t.formatWidth⟩ hlen
      rw [elementwise_decode] at hrec
      simp only [hrec]
    · have hpe : parse_data_field t buf = .error .unexpectedEndOfPayload :=
        parse_from_buf_error_of_short t buf (by omega)
      simp only [hpe]

/-- For every element type but `char`, the element-wise decode of `n`
elements, given at least `n * sizeOf t` remaining bytes, succeeds and agrees
exactly with the bulk reinterpretation of those bytes: same values, same
final cursor. -/
lemma elementwise_eq_bulk {t : PrimTy} (ht : t ≠ .char) :
    ∀ (n : Nat) (buf : MessageBuf), n * t.sizeOf ≤ buf.remaining_bytes.length →
      elementwise_decode t n buf =
        .ok (bulkChunks t n (buf.remaining_bytes.take (n * t.sizeOf)),
          ⟨buf.data, buf.pos + n * t.sizeOf⟩) := by
  intro n
  induction n with
  | zero =>
    intro buf h
    simp [elementwise_decode, parse_array_naive, bulkChunks]
  | succ n ih =>
    intro buf h
    rw [Nat.succ_mul] at h
    have hw : t.sizeOf ≤ buf.remaining_bytes.length := by omega
    rw [elementwise_decode, parse_array_naive]
    have hpe : parse_data_field t buf =
        .ok (reinterpretElem t (buf.remaining_bytes.take t.sizeOf),
          ⟨buf.data, buf.pos + t.sizeOf⟩) :=
      parse_from_buf_eq_reinterpret ht buf hw
    simp only [hpe]
    have hlen : n * t.sizeOf ≤
        (⟨buf.data, buf.pos + t.sizeOf⟩ : MessageBuf).remaining_bytes.length := by
      rw [MessageBuf.length_remaining_pos_add]
      omega
    have hrec := ih ⟨buf.data, buf.pos + t.sizeOf⟩ hlen
    rw [elementwise_decode] at hrec
    simp only [hrec]
    rw [MessageBuf.remaining_bytes_pos_add]
    simp only [Except.ok.injEq, Prod.mk.injEq, MessageBuf.mk.injEq]
    refine ⟨?_, trivial, by rw [Nat.succ_mul]; omega⟩
    rw [Nat.succ_mul, bulkChunks]
    congr 1
    · congr 1
      rw [List.take_take]
      congr 1
      omega
    · congr 1
      rw [List.drop_take]
      congr 1
      omega

/-! ## parse_array: raw-pointer writes versus naive push loop -/

lemma list_set_append_cons {α : Type _} (pre : List α) (a b : α) (r : List α) :
    (pre ++ a :: r).set pre.length b = pre ++ b :: r := by
  induction pre with
  | nil => rfl
  | cons x xs ih => simp [List.set, ih]

lemma parse_array_writes_spec {α : Type _}
    (pe : MessageBuf → Except ULogError (α × MessageBuf)) :
    ∀ (n : Nat) (pre : List (Option α)) (buf : MessageBuf),
      parse_array_writes pe pre.length n (pre ++ List.replicate n none) buf =
        match parse_array_naive pe n buf with
        | .error e => .error e
        | .ok (vs, b') => .ok (pre ++ vs.map some, b') := by
  intro n
  induction n with
  | zero =>
    intro pre buf
    simp [parse_array_writes, parse_array_naive]
  | succ n ih =>
    intro pre buf
    rw [parse_array_writes, parse_array_naive]
    rcases hpe : pe buf with e | ⟨v, buf₁⟩
    · simp only [hpe]
    · simp only [hpe]
      have hset : (pre ++ List.replicate (n + 1) none).set pre.length (some v) =
          (pre ++ [some v]) ++ List.replicate n none := by
        rw [List.replicate_succ, list_set_append_cons, List.append_assoc,
          List.singleton_append]
      have hlen : pre.length + 1 = (pre ++ [some v]).length := by
        simp
      rw [hset, hlen, ih (pre ++ [some v]) buf₁]
      rcases hrec : parse_array_naive pe n buf₁ with e | ⟨vs, b'⟩
      · simp
      · simp

/-- When at least `array_size * size_of::<T>()` bytes remain, `parse_typed_array`
takes the fast path: it slices exactly that byte range off the cursor and
returns its bulk reinterpretation (either sub-path; they agree). -/
lemma parse_typed_array_fast_path (t : PrimTy) (n : Nat) (buf : MessageBuf)
    (aligned : Bool) (h : n * t.sizeOf ≤ buf.remaining_bytes.length) :
    parse_typed_array t n buf aligned =
      .ok (bulkChunks t n (buf.remaining_bytes.take (n * t.sizeOf)),
        ⟨buf.data, buf.pos + n * t.sizeOf⟩) := by
  simp only [parse_typed_array]
  rw [if_pos t.sizeOf_pos, if_pos h]
  simp only [MessageBuf.advance_ok buf _ h]
  cases aligned
  · simp only [Bool.false_eq_true, if_false]
    rw [bulk_chunks_eq_read_unaligned]
  · simp only [if_true]
    rw [bulk_copy_eq_read_unaligned, bulk_chunks_eq_read_unaligned]

/-- When fewer than `array_size * size_of::<T>()` bytes remain, the length
guard fails and `parse_typed_array` runs the element-wise slow path. -/
lemma parse_typed_array_slow_path (t : PrimTy) (n : Nat) (buf : MessageBuf)
    (aligned : Bool) (h : ¬ n * t.sizeOf ≤ buf.remaining_bytes.length) :
    parse_typed_array t n buf aligned = elementwise_decode t n buf := by
  simp only [parse_typed_array]
  rw [if_pos t.sizeOf_pos, if_neg h]

/-- Whenever the real call does not panic (the exact allocation size fits in
`isize::MAX`), the `usize` multiply the source performs for `byte_size` does
not wrap and agrees with the model's exact product, so the source's length
guard and cursor arithmetic coincide with `parse_typed_array`'s. -/
lemma usize_mul_eq_of_no_panic {t : PrimTy} {n : Nat}
    (h : ¬ parse_typed_array_panics t n) :
    usize_mul n t.sizeOf = n * t.sizeOf := by
  rw [usize_mul]
  apply Nat.mod_eq_of_lt
  rw [parse_typed_array_panics, ISIZE_MAX, not_lt] at h
  have hpow : (2 : Nat) ^ 63 - 1 < 2 ^ 64 := by norm_num
  omega

/-! ## Claim theorems -/

/-- C1 (amended): for every supported primitive element type except `char`
and every element count, decoding an array from the same little-endian bytes
via the element-wise policy and via `parse_typed_array`'s fast path (taken
whenever `n * size_of::<T>()` bytes remain, for either alignment outcome)
produces identical value sequences and leaves the cursor at the same
position.  (`char` is excluded: Rust's `size_of::<char>() = 4` makes the fast
path read four bytes per element where the element-wise policy reads one.) -/
theorem parse_typed_array_fast_eq_elementwise (t : PrimTy) (n : Nat)
    (buf : MessageBuf) (aligned : Bool) (ht : t ≠ .char)
    (h : n * t.sizeOf ≤ buf.remaining_bytes.length) :
    parse_typed_array t n buf aligned = elementwise_decode t n buf := by
  rw [parse_typed_array_fast_path t n buf aligned h, elementwise_eq_bulk ht n buf h]

theorem parse_typed_array_fast_eq_elementwise_witness :
    (PrimTy.u16 ≠ PrimTy.char ∧
      2 * PrimTy.u16.sizeOf ≤ (⟨[1, 2, 3, 4], 0⟩ : MessageBuf).remaining_bytes.length) ∧
      parse_typed_array .u16 2 ⟨[1, 2, 3, 4], 0⟩ true =
        elementwise_decode .u16 2 ⟨[1, 2, 3, 4], 0⟩ :=
  ⟨⟨by decide, by decide⟩,
    parse_typed_array_fast_eq_elementwise .u16 2 ⟨[1, 2, 3, 4], 0⟩ true (by decide)
      (by decide)⟩

/-- C1 (counterexample): for `char`, the fast path and the element-wise
policy disagree on the very same bytes — the fast path consumes four bytes
per element (`size_of::<char>()`), the element-wise policy one, so the cursor
ends at different positions. -/
theorem parse_typed_array_char_fast_ne_elementwise :
    parse_typed_array .char 1 ⟨[65, 0, 0, 0], 0⟩ true ≠
      elementwise_decode .char 1 ⟨[65, 0, 0, 0], 0⟩ := by
  decide

/-- C4 (amended): whenever the fast path is taken (at least
`count * size_of::<T>()` bytes remain), `parse_typed_array` consumes exactly
`count * size_of::<T>()` bytes from the cursor.  For every type except `char`
this equals `count * element_width` where `element_width` is the byte width
the format declares (one byte for a boolean, `size_of::<T>` for numerics);
for `char` the format declares one byte but the code consumes four per
element. -/
theorem parse_typed_array_fast_consumes (t : PrimTy) (n : Nat)
    (buf : MessageBuf) (aligned : Bool)
    (h : n * t.sizeOf ≤ buf.remaining_bytes.length) :
    (∃ vals, parse_typed_array t n buf aligned =
      .ok (vals, ⟨buf.data, buf.pos + n * t.sizeOf⟩)) ∧
      (t ≠ .char → n * t.sizeOf = n * t.formatWidth) := by
  refine ⟨⟨_, parse_typed_array_fast_path t n buf aligned h⟩, fun ht => ?_⟩
  rw [PrimTy.formatWidth_eq_sizeOf ht]

theorem parse_typed_array_fast_consumes_witness :
    (2 * PrimTy.u32.sizeOf ≤ (⟨[1, 2, 3, 4, 5, 6, 7, 8], 0⟩ : MessageBuf).remaining_bytes.length) ∧
      ((∃ vals, parse_typed_array .u32 2 ⟨[1, 2, 3, 4, 5, 6, 7, 8], 0⟩ false =
        .ok (vals, ⟨[1, 2, 3, 4, 5, 6, 7, 8], 0 + 2 * PrimTy.u32.sizeOf⟩)) ∧
        (PrimTy.u32 ≠ PrimTy.char → 2 * PrimTy.u32.sizeOf = 2 * PrimTy.u32.formatWidth)) :=
  ⟨by decide,
    parse_typed_array_fast_consumes .u32 2 ⟨[1, 2, 3, 4, 5, 6, 7, 8], 0⟩ false (by decide)⟩

/-- C4 (counterexample): for a one-element `char` array the fast path
consumes `size_of::<char>() = 4` bytes, not the one byte the format declares
(`formatWidth`), so the claimed consumption `count * element_width` is wrong
for `char`. -/
theorem parse_typed_array_char_consumes_ne_format_width :
    parse_typed_array .char 1 ⟨[65, 0, 0, 0], 0⟩ true =
      .ok ([.char 65], ⟨[65, 0, 0, 0], 1 * PrimTy.char.sizeOf⟩) ∧
      1 * PrimTy.char.sizeOf ≠ 1 * PrimTy.char.formatWidth := by
  decide

/-- C3 (amended): for every element type `T` and every `array_size` whose
exact allocation size `array_size * size_of::<T>()` fits in `isize::MAX` (so
the `usize` byte-size computation does not wrap and `Vec::with_capacity` does
not panic — the regime in which the call returns at all), if the message
buffer holds fewer bytes than the array requires (`array_size * formatWidth
t`, what the element-wise decode of the declared elements consumes),
`parse_typed_array` returns the error propagated from the cursor's take
operations; and it never returns `Ok` with a vector whose length differs from
`array_size`.  The first conjunct records that in this regime the source's
`usize` product — and with it the source's length guard and cursor
arithmetic — coincides with the model's exact one.  For larger `array_size`
the call never returns: see
`parse_typed_array_overflow_short_buffer_panics`. -/
theorem parse_typed_array_short_error_or_exact_length (t : PrimTy) (n : Nat)
    (buf : MessageBuf) (aligned : Bool)
    (hsafe : ¬ parse_typed_array_panics t n) :
    usize_mul n t.sizeOf = n * t.sizeOf ∧
      (buf.remaining_bytes.length < n * t.formatWidth →
        parse_typed_array t n buf aligned = .error .unexpectedEndOfPayload) ∧
      (∀ vals b', parse_typed_array t n buf aligned = .ok (vals, b') →
        vals.length = n) := by
  refine ⟨usize_mul_eq_of_no_panic hsafe, ?_, ?_⟩
  · intro hshort
    have hsz : ¬ n * t.sizeOf ≤ buf.remaining_bytes.length := by
      have := Nat.mul_le_mul_left n t.formatWidth_le_sizeOf
      omega
    rw [parse_typed_array_slow_path t n buf aligned hsz]
    exact elementwise_decode_short_error t n buf hshort
  · intro vals b' h
    by_cases hsz : n * t.sizeOf ≤ buf.remaining_bytes.length
    · rw [parse_typed_array_fast_path t n buf aligned hsz] at h
      simp only [Except.ok.injEq, Prod.mk.injEq] at h
      rw [← h.1, ← bulk_chunks_eq_read_unaligned, bulk_read_unaligned_length]
    · rw [parse_typed_array_slow_path t n buf aligned hsz] at h
      rw [elementwise_decode] at h
      exact parse_array_naive_ok_length h

theorem parse_typed_array_short_error_or_exact_length_witness :
    (¬ parse_typed_array_panics .u16 2) ∧
      usize_mul 2 PrimTy.u16.sizeOf = 2 * PrimTy.u16.sizeOf ∧
      ((⟨[1, 2, 3], 0⟩ : MessageBuf).remaining_bytes.length < 2 * PrimTy.u16.formatWidth) ∧
      parse_typed_array .u16 2 ⟨[1, 2, 3], 0⟩ true = .error .unexpectedEndOfPayload :=
  ⟨by decide,
    (parse_typed_array_short_error_or_exact_length .u16 2 ⟨[1, 2, 3], 0⟩ true (by decide)).1,
    by decide,
    (parse_typed_array_short_error_or_exact_length .u16 2 ⟨[1, 2, 3], 0⟩ true (by decide)).2.1
      (by decide)⟩

/-- C3 (counterexample): with `T = u64`, `array_size = 2^61` and an empty
buffer, far fewer bytes remain than the array requires, so the original claim
demands the cursor error; but the `usize` byte size the source computes wraps
to `0`, the source's length guard `remaining >= 0` passes — so the source
enters the fast path and never runs the element-wise loop whose take
operations produce that error — and the call then panics in
`Vec::with_capacity(2^61)` (capacity overflow; on the debug profile the
byte-size multiply panics first).  No error and no `Ok` is ever returned.
The exact-arithmetic model diverges from the source at this input: its guard
uses the unwrapped product, so it takes the slow path and returns the error
the claim asks for — which is why the claim is amended to the
non-overflowing regime rather than confirmed. -/
theorem parse_typed_array_overflow_short_buffer_panics :
    (⟨[], 0⟩ : MessageBuf).remaining_bytes.length < 2 ^ 61 * PrimTy.u64.formatWidth ∧
      usize_mul (2 ^ 61) PrimTy.u64.sizeOf = 0 ∧
      usize_mul (2 ^ 61) PrimTy.u64.sizeOf ≤ (⟨[], 0⟩ : MessageBuf).remaining_bytes.length ∧
      parse_typed_array_panics .u64 (2 ^ 61) ∧
      parse_typed_array .u64 (2 ^ 61) ⟨[], 0⟩ true = .error .unexpectedEndOfPayload := by
  refine ⟨by decide, by decide, by decide, by decide, ?_⟩
  rw [parse_typed_array_slow_path .u64 (2 ^ 61) ⟨[], 0⟩ true (by decide)]
  exact elementwise_decode_short_error .u64 (2 ^ 61) ⟨[], 0⟩ (by decide)

/-- C2 (the code at the failing input): with element type `bool`,
`array_size = 1` and buffer bytes `[2]`, the fast path's length guard passes
and the bulk reinterpretation is handed the byte pattern `2`, which is not a
valid Rust `bool` — materializing that value is undefined behavior, contrary
to the claim (and to the unsafe block's SAFETY comment, which assumes a
numeric `T`).  In the total model the call still returns an `Ok` value, which
is what the concrete machine happens to produce. -/
theorem parse_typed_array_bool_fast_path_invalid_value :
    fastPathReadsInvalid .bool 1 ⟨[2], 0⟩ ∧
      parse_typed_array .bool 1 ⟨[2], 0⟩ true = .ok ([.bool true], ⟨[2], 1⟩) :=
  ⟨⟨by decide, 0, by decide, by decide⟩, by decide⟩

/-- C9: `parse_array` — which writes each element through a raw pointer into
uninitialized capacity and only then sets the length — is extensionally equal
to the naive implementation that pushes the result of each sequential
`parse_element` call: same success vector (the `i`-th element is the `i`-th
call's result), same final cursor, same first error; and the result never
depends on the contents `junk` of uninitialized memory. -/
theorem parse_array_eq_parse_array_naive {α : Type _}
    (pe : MessageBuf → Except ULogError (α × MessageBuf)) (junk : α)
    (n : Nat) (buf : MessageBuf) :
    parse_array n buf pe junk = parse_array_naive pe n buf := by
  rw [parse_array]
  have h := parse_array_writes_spec pe n [] buf
  simp only [List.length_nil, List.nil_append] at h
  rw [h]
  rcases hr : parse_array_naive pe n buf with e | ⟨vs, b'⟩
  · rfl
  · have hcomp : ((fun (o : Option α) => o.getD junk) ∘ some) = id := by
      funext x
      rfl
    simp [List.map_map, hcomp]

/-- C5: scalar decode of a boolean consumes exactly one byte and yields
`true` iff that byte is nonzero; scalar decode of a character consumes
exactly one byte and yields that raw byte value as the code point; both
succeed on every buffer with at least one remaining byte. -/
theorem parse_from_buf_bool_char_one_byte (buf : MessageBuf) (b : Nat)
    (rest : List Nat) (hb : buf.remaining_bytes = b :: rest) (hlt : b < 256) :
    parse_from_buf .bool buf = .ok (.bool (b != 0), ⟨buf.data, buf.pos + 1⟩) ∧
      parse_from_buf .char buf = .ok (.char b, ⟨buf.data, buf.pos + 1⟩) := by
  have h1 : (1 : Nat) ≤ buf.remaining_bytes.length := by
    rw [hb]
    simp
  have htake : buf.remaining_bytes.take 1 = [b] := by
    rw [hb]
    rfl
  constructor <;>
    simp [parse_from_buf, MessageBuf.take_u8, MessageBuf.takeLeNat, MessageBuf.advance,
      h1, htake, fromLeBytes, Nat.mod_eq_of_lt hlt]

theorem parse_from_buf_bool_char_one_byte_witness :
    ((⟨[2, 7], 0⟩ : MessageBuf).remaining_bytes = 2 :: [7] ∧ (2 : Nat) < 256) ∧
      parse_from_buf .bool ⟨[2, 7], 0⟩ = .ok (.bool ((2 : Nat) != 0), ⟨[2, 7], 0 + 1⟩) ∧
      parse_from_buf .char ⟨[2, 7], 0⟩ = .ok (.char 2, ⟨[2, 7], 0 + 1⟩) :=
  ⟨⟨by decide, by decide⟩,
    parse_from_buf_bool_char_one_byte ⟨[2, 7], 0⟩ 2 [7] (by decide) (by decide)⟩

/-- C6: a builder constructed by `new` or `from_file` has `include_header`,
`include_timestamp`, `include_padding` all false and the allow-list unset;
and building without calling any setter yields a parser with exactly those
defaults. -/
theorem builder_new_defaults (R : Type _) (reader : R)
    (checkHeader : R → Option ULogError) (openMmap : String → Option R)
    (path : String) :
    ((ULogParserBuilder.new reader).include_header = false ∧
      (ULogParserBuilder.new reader).include_timestamp = false ∧
      (ULogParserBuilder.new reader).include_padding = false ∧
      (ULogParserBuilder.new reader).allowed_subscription_names = none) ∧
      (∀ b, ULogParserBuilder.from_file openMmap path = .ok b →
        b.include_header = false ∧ b.include_timestamp = false ∧
        b.include_padding = false ∧ b.allowed_subscription_names = none) ∧
      (∀ p, (ULogParserBuilder.new reader).build (ULogParser.new checkHeader) = .ok p →
        p.include_header = false ∧ p.include_timestamp = false ∧
        p.include_padding = false ∧ p.allowed_subscription_names = none) := by
  refine ⟨⟨rfl, rfl, rfl, rfl⟩, ?_, ?_⟩
  · intro b hb
    rw [ULogParserBuilder.from_file] at hb
    rcases ho : openMmap path with _ | r
    · simp only [ho] at hb
      exact Except.noConfusion hb
    · simp only [ho, Except.ok.injEq] at hb
      rw [← hb]
      exact ⟨rfl, rfl, rfl, rfl⟩
  · intro p hp
    rw [ULogParserBuilder.build] at hp
    rcases hch : checkHeader reader with _ | e
    · simp only [ULogParserBuilder.new, ULogParser.new, hch, Except.ok.injEq] at hp
      rw [← hp]
      exact ⟨rfl, rfl, rfl, rfl⟩
    · simp only [ULogParserBuilder.new, ULogParser.new, hch] at hp
      exact Except.noConfusion hp

theorem builder_new_defaults_witness :
    ((⟨0, false, false, false, none⟩ : ULogParser Nat).include_header = false ∧
      (⟨0, false, false, false, none⟩ : ULogParser Nat).include_timestamp = false ∧
      (⟨0, false, false, false, none⟩ : ULogParser Nat).include_padding = false ∧
      (⟨0, false, false, false, none⟩ : ULogParser Nat).allowed_subscription_names = none) :=
  (builder_new_defaults Nat 0 (fun _ => none) (fun _ => some 0) "sample.ulg").2.2
    ⟨0, false, false, false, none⟩ rfl

/-- C7: `from_file` reports the I/O error kind exactly when the file cannot
be opened or memory-mapped, before any parsing occurs — on failure no builder
(and hence no parser state) is produced; on success the builder exists with
the default configuration. -/
theorem from_file_io_error_before_parsing (R : Type _)
    (openMmap : String → Option R) (path : String) :
    (openMmap path = none →
      ULogParserBuilder.from_file openMmap path = .error .ioError) ∧
      (∀ r, openMmap path = some r →
        ULogParserBuilder.from_file openMmap path =
          .ok ⟨r, false, false, false, none⟩) := by
  constructor
  · intro h
    simp only [ULogParserBuilder.from_file, h]
  · intro r h
    simp only [ULogParserBuilder.from_file, h]

theorem from_file_io_error_before_parsing_witness :
    ((fun (_ : String) => (none : Option Nat)) "sample.ulg" = none) ∧
      ULogParserBuilder.from_file (fun (_ : String) => (none : Option Nat)) "sample.ulg" =
        .error .ioError :=
  ⟨rfl, (from_file_io_error_before_parsing Nat (fun _ => none) "sample.ulg").1 rfl⟩

/-- C8: each setter stores exactly the given value (so the builder fields
hold the values last set); `build` returns `Ok` exactly when `ULogParser::new`
does; in the `Ok` case the parser carries the builder's three flags and the
allow-list is installed iff the builder's was set (`Some`), the parser's own
default surviving otherwise; in the `Err` case the error is returned
unchanged. -/
theorem build_installs_configuration (R : Type _)
    (new : R → Except ULogError (ULogParser R)) (b : ULogParserBuilder R) :
    (∀ v, (b.set_include_header v).include_header = v) ∧
      (∀ v, (b.set_include_timestamp v).include_timestamp = v) ∧
      (∀ v, (b.set_include_padding v).include_padding = v) ∧
      (∀ subs, (b.set_subscription_allow_list subs).allowed_subscription_names =
        some subs) ∧
      (∀ e, new b.reader = .error e → b.build new = .error e) ∧
      (∀ p, new b.reader = .ok p →
        b.build new = .ok
          { reader := p.reader
            include_header := b.include_header
            include_timestamp := b.include_timestamp
            include_padding := b.include_padding
            allowed_subscription_names :=
              match b.allowed_subscription_names with
              | some s => some s
              | none => p.allowed_subscription_names }) ∧
      ((∃ p, b.build new = .ok p) ↔ ∃ p, new b.reader = .ok p) := by
  have herr : ∀ e, new b.reader = .error e → b.build new = .error e := by
    intro e he
    simp only [ULogParserBuilder.build, he]
  have hok : ∀ p, new b.reader = .ok p →
      b.build new = .ok
        { reader := p.reader
          include_header := b.include_header
          include_timestamp := b.include_timestamp
          include_padding := b.include_padding
          allowed_subscription_names :=
            match b.allowed_subscription_names with
            | some s => some s
            | none => p.allowed_subscription_names } := by
    intro p hp
    simp only [ULogParserBuilder.build, hp, ULogParser.set_allowed_subscription_names]
    rcases hal : b.allowed_subscription_names with _ | s <;> simp only [hal]
  refine ⟨fun v => rfl, fun v => rfl, fun v => rfl, fun subs => rfl, herr, hok, ?_⟩
  constructor
  · rintro ⟨p', hp'⟩
    rcases hn : new b.reader with e | p
    · rw [herr e hn] at hp'
      exact Except.noConfusion hp'
    · exact ⟨p, rfl⟩
  · rintro ⟨p, hp⟩
    exact ⟨_, hok p hp⟩

theorem build_installs_configuration_witness :
    ((fun (r : Nat) =>
        (Except.ok ⟨r, false, false, false, some ["gps"]⟩ :
          Except ULogError (ULogParser Nat)))
        (ULogParserBuilder.mk 5 true false true none).reader =
      .ok ⟨5, false, false, false, some ["gps"]⟩) ∧
      (ULogParserBuilder.mk 5 true false true none).build
          (fun (r : Nat) =>
            (Except.ok ⟨r, false, false, false, some ["gps"]⟩ :
              Except ULogError (ULogParser Nat))) =
        .ok ⟨5, true, false, true, some ["gps"]⟩ :=
  ⟨rfl,
    (build_installs_configuration Nat
        (fun (r : Nat) =>
          (Except.ok ⟨r, false, false, false, some ["gps"]⟩ :
            Except ULogError (ULogParser Nat)))
        (ULogParserBuilder.mk 5 true false true none)).2.2.2.2.2.1
      ⟨5, false, false, false, some ["gps"]⟩ rfl⟩

/-- C10: calling `set_subscription_allow_list` with an empty collection
yields `Some` of the empty set — distinct from the default `None`; under the
spec's policy no name is fully decoded with the empty allow-list, whereas
with the allow-list unset every name is; and `build` installs the empty set
on the parser. -/
theorem empty_allow_list_some_empty (R : Type _) (b : ULogParserBuilder R)
    (checkHeader : R → Option ULogError) (name : String) :
    (b.set_subscription_allow_list []).allowed_subscription_names = some [] ∧
      some ([] : List String) ≠ (none : Option (List String)) ∧
      decodesFully (some []) name = false ∧
      decodesFully none name = true ∧
      (∀ p, (b.set_subscription_allow_list []).build (ULogParser.new checkHeader) = .ok p →
        p.allowed_subscription_names = some []) := by
  refine ⟨rfl, by simp, rfl, rfl, ?_⟩
  intro p hp
  rw [ULogParserBuilder.build] at hp
  rcases hch : checkHeader b.reader with _ | e
  · simp only [ULogParser.new, ULogParserBuilder.set_subscription_allow_list, hch,
      ULogParser.set_allowed_subscription_names, Except.ok.injEq] at hp
    rw [← hp]
  · simp only [ULogParser.new, ULogParserBuilder.set_subscription_allow_list, hch] at hp
    exact Except.noConfusion hp

theorem empty_allow_list_some_empty_witness :
    (((ULogParserBuilder.new (0 : Nat)).set_subscription_allow_list []).build
        (ULogParser.new (fun _ => none)) =
      .ok ⟨0, false, false, false, some []⟩) ∧
      (⟨0, false, false, false, some []⟩ : ULogParser Nat).allowed_subscription_names =
        some [] :=
  ⟨rfl,
    (empty_allow_list_some_empty Nat (ULogParserBuilder.new 0) (fun _ => none) "gps").2.2.2.2
      ⟨0, false, false, false, some []⟩ rfl⟩
